import Mathlib

/-!
Shallow embedding of the agent-skill-builder deployment and
link-synchronization core (src/types.ts, src/utils.ts, src/validator.ts,
src/converter.ts, src/deployer.ts, src/linker.ts).

Filesystem access is modelled explicitly: read access goes through an
`FS` value (an existence predicate over paths), and every write the code
performs is recorded as an `FsEffect`; `FS.applyEffect` gives the
resulting filesystem.  Manifest-file parsing and the external stat /
directory-validation / git-clone capabilities are supplied by a `World`
record, matching the spec's treatment of them as external collaborators.
-/

set_option maxRecDepth 8000

namespace SkillBuilder

/-- types.ts `DeployTarget`. -/
inductive DeployTarget
  | claude
  | codex
  | cursor
deriving DecidableEq, Repr

/-- types.ts `SkillMetadata` (the typed view used by deployer/converter). -/
structure SkillMetadata where
  name : String
  description : String
  allowedTools : Option (List String) := none
  model : Option String := none
  skills : Option (List String) := none
deriving DecidableEq, Repr

/-- types.ts `SkillFile`: parsed frontmatter plus the markdown body. -/
structure SkillFile where
  metadata : SkillMetadata
  content : String
  raw : String := ""
deriving DecidableEq, Repr

/-- types.ts `DeployOptions`. -/
structure DeployOptions where
  targets : List DeployTarget
  force : Bool := false
  dryRun : Bool := false
  projectPath : Option String := none
deriving DecidableEq, Repr

/-- types.ts `ValidationError`. -/
structure ValidationError where
  field : String
  message : String
deriving DecidableEq, Repr

/-- types.ts `ValidationResult`. -/
structure ValidationResult where
  valid : Bool
  errors : List ValidationError
deriving DecidableEq, Repr

/-- types.ts `DeployResult`. -/
structure DeployResult where
  target : DeployTarget
  success : Bool
  path : Option String := none
  error : Option String := none
deriving DecidableEq, Repr

/-- JS `String.prototype.startsWith`, on code points. -/
def startsWithS (s p : String) : Bool := p.data.isPrefixOf s.data

/-- JS `String.prototype.endsWith`, on code points. -/
def endsWithS (s p : String) : Bool := p.data.isSuffixOf s.data

/-- JS `String.prototype.includes` (substring containment), on code points. -/
def hasSub (s pat : String) : Bool := decide (pat.data <:+: s.data)

/-- JS `String.prototype.trim`: strip whitespace from both ends. -/
def jsTrim (s : String) : String :=
  ⟨((s.data.dropWhile Char.isWhitespace).reverse.dropWhile Char.isWhitespace).reverse⟩

/-- JS `Array.prototype.join("\n")`, as used on the converter's line list. -/
def joinLines : List String → String
  | [] => ""
  | [x] => x
  | x :: y :: xs => x ++ "\n" ++ joinLines (y :: xs)

/-- Path join (std `join`), modelled as separator concatenation. -/
def joinPath (a b : String) : String := a ++ "/" ++ b

/-- utils.ts `expandHome`, with the home directory supplied explicitly
(per the spec's injected-configuration note). -/
def expandHome (home fp : String) : String :=
  if startsWithS fp "~/" then joinPath home (fp.drop 2) else fp

/-- types.ts `TARGET_PATHS.cursor.project`. -/
def cursorProjectPath : String := ".cursorrules"

/-- deployer.ts `getTargetPath`: fixed location per target and scope;
cursor only has the single project-level file. -/
def getTargetPath : DeployTarget → Bool → String
  | .claude, isUserLevel => if isUserLevel then "~/.claude/skills" else ".claude/skills"
  | .codex, isUserLevel => if isUserLevel then "~/.codex/skills" else ".codex/skills"
  | .cursor, _ => cursorProjectPath

/-- One recorded filesystem mutation performed by the code. -/
inductive FsEffect
  | removePath (p : String) (recursive : Bool)
  | mkdirp (p : String)
  | copyDir (src dst : String)
  | writeFile (p : String) (content : String)
  | makeTempDir (p : String)
  | gitClone (source : String) (branch : Option String) (dst : String)
deriving DecidableEq, Repr

/-- `q` lies strictly beneath directory `p`. -/
def underPath (p q : String) : Prop := (p ++ "/").data <+: q.data

instance (p q : String) : Decidable (underPath p q) := by
  unfold underPath
  infer_instance

/-- The filesystem as seen by the code: an existence predicate on paths. -/
structure FS where
  pathExists : String → Bool

/-- Result of one recorded mutation on the existence predicate. -/
def FS.applyEffect (fs : FS) : FsEffect → FS
  | .removePath p _ =>
    ⟨fun q => if q = p ∨ underPath p q then false else fs.pathExists q⟩
  | .mkdirp p => ⟨fun q => if q = p then true else fs.pathExists q⟩
  | .copyDir src dst =>
    ⟨fun q =>
      if q = dst then true
      else if underPath dst q then fs.pathExists (src ++ q.drop dst.length)
      else fs.pathExists q⟩
  | .writeFile p _ => ⟨fun q => if q = p then true else fs.pathExists q⟩
  | .makeTempDir p => ⟨fun q => if q = p then true else fs.pathExists q⟩
  | .gitClone _ _ dst => ⟨fun q => if q = dst then true else fs.pathExists q⟩

/-- Apply a list of recorded mutations in order. -/
def FS.applyEffects (fs : FS) (effs : List FsEffect) : FS :=
  effs.foldl FS.applyEffect fs

/-- External capabilities used by the core, per the spec's collaborator
interfaces: home directory, manifest parsing, `Deno.stat` directory
checks, skill-directory validation, temp-dir naming, git clone, cwd. -/
structure World where
  home : String
  parseSkill : String → Except String SkillFile
  statIsDir : String → Except String Bool
  skillDirValid : String → ValidationResult
  tempDir : String
  cloneResult : String → Option String → Except String Unit
  cwd : String

/-- converter.ts `convertToCursorRules`: heading from `name`, a
Description section, then the body — passed through `trim`med when it
already contains a `## Rule:` marker, else wrapped in one generic
section. -/
def convertToCursorRules (skill : SkillFile) : String :=
  let name := skill.metadata.name
  let description := skill.metadata.description
  let content := skill.content
  let headerLines : List String := [s!"# {name}", "", "## Description", description, ""]
  let lines : List String :=
    if hasSub content "## Rule:" then headerLines ++ [jsTrim content]
    else headerLines ++ ["## Rule: Skill Instructions", "", jsTrim content]
  joinLines lines

/-- deployer.ts `deployToClaudeOrCodex`: resolve the destination, guard
on overwrite, and (unless dry-run) remove/ensure/copy. -/
def deployToClaudeOrCodex (w : World) (fs : FS) (skillDir : String)
    (target : DeployTarget) (skillName : String) (options : DeployOptions) :
    DeployResult × List FsEffect :=
  let targetBase := getTargetPath target true
  let expandedBase := expandHome w.home targetBase
  let targetPath := joinPath expandedBase skillName
  if fs.pathExists targetPath then
    if !options.force then
      ({ target := target, success := false,
         error := some s!"Skill already exists at {targetPath}. Use --force to overwrite." }, [])
    else
      let removeEffs := if !options.dryRun then [FsEffect.removePath targetPath true] else []
      let copyEffs :=
        if !options.dryRun then
          [FsEffect.mkdirp expandedBase, FsEffect.copyDir skillDir targetPath]
        else []
      ({ target := target, success := true, path := some targetPath }, removeEffs ++ copyEffs)
  else
    let copyEffs :=
      if !options.dryRun then
        [FsEffect.mkdirp expandedBase, FsEffect.copyDir skillDir targetPath]
      else []
    ({ target := target, success := true, path := some targetPath }, copyEffs)

/-- deployer.ts `deployToCursor`: re-parse the manifest, convert it, and
write the single project-level `.cursorrules` file behind the same
overwrite guard. -/
def deployToCursor (w : World) (fs : FS) (skillDir : String) (options : DeployOptions) :
    DeployResult × List FsEffect :=
  let skillPath := joinPath skillDir "SKILL.md"
  match w.parseSkill skillPath with
  | .error e => ({ target := .cursor, success := false, error := some e }, [])
  | .ok skill =>
    let cursorRules := convertToCursorRules skill
    let targetPath := cursorProjectPath
    if fs.pathExists targetPath then
      if !options.force then
        ({ target := .cursor, success := false,
           error := some s!"{targetPath} already exists. Use --force to overwrite." }, [])
      else
        let writeEffs :=
          if !options.dryRun then [FsEffect.writeFile targetPath cursorRules] else []
        ({ target := .cursor, success := true, path := some targetPath }, writeEffs)
    else
      let writeEffs :=
        if !options.dryRun then [FsEffect.writeFile targetPath cursorRules] else []
      ({ target := .cursor, success := true, path := some targetPath }, writeEffs)

/-- Body of deployer.ts `deploySkill`'s per-target loop. -/
def deployOne (w : World) (fs : FS) (skillDir : String) (skillName : String)
    (options : DeployOptions) (target : DeployTarget) : DeployResult × List FsEffect :=
  if target = .cursor then deployToCursor w fs skillDir options
  else deployToClaudeOrCodex w fs skillDir target skillName options

/-- deployer.ts `deploySkill`'s loop over `options.targets`, threading
the filesystem through the effects of each handled target. -/
def deployTargets (w : World) (skillDir : String) (skillName : String)
    (options : DeployOptions) : List DeployTarget → FS → List DeployResult × FS × List FsEffect
  | [], fs => ([], fs, [])
  | t :: ts, fs =>
    let step := deployOne w fs skillDir skillName options t
    let fs1 := fs.applyEffects step.2
    let rest := deployTargets w skillDir skillName options ts fs1
    (step.1 :: rest.1, rest.2.1, step.2 ++ rest.2.2)

/-- deployer.ts `deploySkill`: parse the manifest once for the skill
name (a parse failure propagates to the caller), then handle each
requested target in order. -/
def deploySkill (w : World) (fs : FS) (skillDir : String) (options : DeployOptions) :
    Except String (List DeployResult × FS × List FsEffect) :=
  let skillPath := joinPath skillDir "SKILL.md"
  match w.parseSkill skillPath with
  | .error e => .error e
  | .ok skill => .ok (deployTargets w skillDir skill.metadata.name options options.targets fs)

/-- Outcome record of deployer.ts `removeSkill`. -/
structure RemoveResult where
  success : Bool
  error : Option String := none
deriving DecidableEq, Repr

/-- deployer.ts `removeSkill`: delete the per-skill subdirectory (or,
for cursor, the single `.cursorrules` file, ignoring the name). -/
def removeSkill (w : World) (fs : FS) (skillName : String) (target : DeployTarget) :
    RemoveResult × List FsEffect :=
  if target = .cursor then
    let targetPath := cursorProjectPath
    if fs.pathExists targetPath then
      ({ success := true }, [FsEffect.removePath targetPath false])
    else
      ({ success := true }, [])
  else
    let targetBase := getTargetPath target true
    let expandedBase := expandHome w.home targetBase
    let targetPath := joinPath expandedBase skillName
    if fs.pathExists targetPath then
      ({ success := true }, [FsEffect.removePath targetPath true])
    else
      ({ success := false, error := some s!"Skill not found: {targetPath}" }, [])

/-- A dynamically-typed YAML value, as the frontmatter parser hands the
validator a loosely-typed string-keyed map. -/
inductive JVal
  | str (s : String)
  | num (n : Int)
  | arr (xs : List JVal)
  | boolv (b : Bool)
  | nullv

/-- JS truthiness of a field value (`undefined` is `Option.none`). -/
def JVal.truthy : JVal → Bool
  | .str s => !s.data.isEmpty
  | .num n => n != 0
  | .arr _ => true
  | .boolv b => b
  | .nullv => false

/-- The untyped field bag passed to validator.ts `validateMetadata`;
`none` models an absent (`undefined`) field. -/
structure MetadataBag where
  name : Option JVal := none
  description : Option JVal := none
  allowedTools : Option JVal := none
  model : Option JVal := none
  skills : Option JVal := none

/-- types.ts `LIMITS.name`. -/
def LIMITS_name : Nat := 64

/-- types.ts `LIMITS.description`. -/
def LIMITS_description : Nat := 500

/-- One character of the `^[a-z0-9-]+$` skill-name alphabet. -/
def nameChar (c : Char) : Bool :=
  (decide ('a' ≤ c) && decide (c ≤ 'z')) || (decide ('0' ≤ c) && decide (c ≤ '9')) || c == '-'

/-- The `^[a-z0-9-]+$` test of validator.ts (and linker.ts). -/
def matchesNameFormat (s : String) : Bool :=
  !s.data.isEmpty && s.data.all nameChar

/-- The `name` block of validator.ts `validateMetadata`. -/
def nameFieldErrors (v : Option JVal) : List ValidationError :=
  match v with
  | none => [⟨"name", "Required field is missing"⟩]
  | some jv =>
    if !jv.truthy then [⟨"name", "Required field is missing"⟩]
    else
      match jv with
      | .str s =>
        let n := s.length
        (if s.length > LIMITS_name then
          [⟨"name", s!"Must be {LIMITS_name} characters or less (got {n})"⟩]
        else []) ++
        (if s.data.contains '\n' then
          [⟨"name", "Must be a single line (no newlines)"⟩]
        else []) ++
        (if !matchesNameFormat s then
          [⟨"name", "Must contain only lowercase letters, numbers, and hyphens"⟩]
        else [])
      | _ => [⟨"name", "Must be a string"⟩]

/-- The `description` block of validator.ts `validateMetadata`. -/
def descriptionFieldErrors (v : Option JVal) : List ValidationError :=
  match v with
  | none => [⟨"description", "Required field is missing"⟩]
  | some jv =>
    if !jv.truthy then [⟨"description", "Required field is missing"⟩]
    else
      match jv with
      | .str s =>
        let n := s.length
        (if s.length > LIMITS_description then
          [⟨"description", s!"Must be {LIMITS_description} characters or less (got {n})"⟩]
        else []) ++
        (if s.data.contains '\n' then
          [⟨"description", "Must be a single line (no newlines)"⟩]
        else [])
      | _ => [⟨"description", "Must be a string"⟩]

/-- The per-index element check of the `allowed-tools` / `skills`
blocks: each non-string element is reported with its index. -/
def arrayItemErrors (field : String) (xs : List JVal) : List ValidationError :=
  (xs.enum.filterMap fun p =>
    match p.2 with
    | .str _ => none
    | _ =>
      let i := p.1
      some ⟨field, s!"Item at index {i} must be a string"⟩)

/-- The block validating an optional array-of-strings field. -/
def optionalArrayFieldErrors (field : String) (v : Option JVal) : List ValidationError :=
  match v with
  | none => []
  | some jv =>
    match jv with
    | .arr xs => arrayItemErrors field xs
    | _ => [⟨field, "Must be an array"⟩]

/-- The `model` block of validator.ts `validateMetadata`. -/
def modelFieldErrors (v : Option JVal) : List ValidationError :=
  match v with
  | none => []
  | some (.str _) => []
  | some _ => [⟨"model", "Must be a string"⟩]

/-- validator.ts `validateMetadata`: collect the errors of every field
rule independently, in source order. -/
def validateMetadata (metadata : MetadataBag) : List ValidationError :=
  nameFieldErrors metadata.name ++
  descriptionFieldErrors metadata.description ++
  optionalArrayFieldErrors "allowed-tools" metadata.allowedTools ++
  modelFieldErrors metadata.model ++
  optionalArrayFieldErrors "skills" metadata.skills

/-- types.ts `LinkType`. -/
inductive LinkType
  | «local»
  | git
  | web
deriving DecidableEq, Repr

/-- types.ts `SkillLink`. -/
structure SkillLink where
  name : String
  type : LinkType
  source : String
  path : Option String := none
  branch : Option String := none
  enabled : Bool := true
  description : Option String := none
deriving DecidableEq, Repr

/-- types.ts `SkillLinkRegistry`: the persisted registry document. -/
structure SkillLinkRegistry where
  version : String
  links : List SkillLink
deriving DecidableEq, Repr

/-- types.ts `LINK_REGISTRY_VERSION`. -/
def LINK_REGISTRY_VERSION : String := "1.0.0"

/-- types.ts `LinkOptions`; `userLevel` is optional in the source and
the two call sites default it differently, so it stays an `Option`. -/
structure LinkOptions where
  target : DeployTarget
  userLevel : Option Bool := none
  force : Bool := false
deriving DecidableEq, Repr

/-- types.ts `LinkResult`. -/
structure LinkResult where
  success : Bool
  link : Option SkillLink := none
  error : Option String := none
deriving DecidableEq, Repr

/-- types.ts `SyncResult`; the source's `{} as SkillLink` placeholder in
error paths is modelled as `none`. -/
structure SyncResult where
  link : Option SkillLink
  success : Bool
  deployResults : Option (List DeployResult) := none
  error : Option String := none
deriving DecidableEq, Repr

/-- linker.ts `detectLinkType`: URL-shape heuristics for the default
link kind. -/
def detectLinkType (source : String) : LinkType :=
  if startsWithS source "http://" || startsWithS source "https://" then
    if hasSub source "github.com" || endsWithS source ".git" then .git else .web
  else .local

/-- linker.ts `validateLink`: name-format check, then a per-kind source
check (for `local` via the stat and directory-validation capabilities). -/
def validateLink (w : World) (link : SkillLink) : Bool × Option String :=
  if !matchesNameFormat link.name then
    (false, some "Link name must contain only lowercase letters, numbers, and hyphens")
  else
    match link.type with
    | .local =>
      let sourcePath := expandHome w.home link.source
      match w.statIsDir sourcePath with
      | .error e => (false, some s!"Cannot access source: {e}")
      | .ok isDir =>
        if !isDir then (false, some "Local source must be a directory")
        else
          let validation := w.skillDirValid sourcePath
          if !validation.valid then
            let msgs := String.intercalate ", " (validation.errors.map fun e => e.message)
            (false, some s!"Invalid skill directory: {msgs}")
          else (true, none)
    | .git =>
      if !startsWithS link.source "http://" && !startsWithS link.source "https://" &&
          !startsWithS link.source "git@" then
        (false, some "Git source must be a valid URL or SSH address")
      else (true, none)
    | .web =>
      if !startsWithS link.source "http://" && !startsWithS link.source "https://" then
        (false, some "Web source must be a valid HTTP(S) URL")
      else (true, none)

/-- The optional detail bag of linker.ts `addLink`. -/
structure LinkAddDetails where
  type : Option LinkType := none
  path : Option String := none
  branch : Option String := none
  description : Option String := none
  enabled : Option Bool := none
deriving DecidableEq, Repr

/-- linker.ts `addLink` on the parsed registry document: overwrite
guard, kind inference, link validation, then upsert in place.  The
second component is the registry written back (`none` = no write). -/
def addLink (w : World) (registry : SkillLinkRegistry) (name source : String)
    (options : LinkOptions) (linkOptions : LinkAddDetails) :
    LinkResult × Option SkillLinkRegistry :=
  let existingIndex := registry.links.findIdx? fun l => l.name == name
  if existingIndex.isSome && !options.force then
    ({ success := false,
       error := some s!"Link \"{name}\" already exists. Use --force to overwrite." }, none)
  else
    let linkType := linkOptions.type.getD (detectLinkType source)
    let link : SkillLink :=
      { name := name, type := linkType, source := source, path := linkOptions.path,
        branch := linkOptions.branch, enabled := linkOptions.enabled.getD true,
        description := linkOptions.description }
    let validation := validateLink w link
    if !validation.1 then
      ({ success := false, error := validation.2 }, none)
    else
      let newLinks :=
        match existingIndex with
        | some i => registry.links.set i link
        | none => registry.links ++ [link]
      ({ success := true, link := some link }, some { registry with links := newLinks })

/-- linker.ts `removeLink`: splice out the first link with the name, or
fail without writing. -/
def removeLink (registry : SkillLinkRegistry) (name : String) :
    LinkResult × Option SkillLinkRegistry :=
  match registry.links.findIdx? fun l => l.name == name with
  | none => ({ success := false, error := some s!"Link \"{name}\" not found" }, none)
  | some i =>
    match registry.links[i]? with
    | none => ({ success := false, error := some s!"Link \"{name}\" not found" }, none)
    | some link =>
      ({ success := true, link := some link },
       some { registry with links := registry.links.eraseIdx i })

/-- linker.ts `listLinks`: the links of the parsed registry. -/
def listLinks (registry : SkillLinkRegistry) : List SkillLink :=
  registry.links

/-- linker.ts `toggleLink`: set `enabled` on the first link with the
name (in-place field mutation in the source = `List.set` of the updated
record here), or fail without writing. -/
def toggleLink (registry : SkillLinkRegistry) (name : String) (enabled : Bool) :
    LinkResult × Option SkillLinkRegistry :=
  match registry.links.findIdx? fun l => l.name == name with
  | none => ({ success := false, error := some s!"Link \"{name}\" not found" }, none)
  | some i =>
    match registry.links[i]? with
    | none => ({ success := false, error := some s!"Link \"{name}\" not found" }, none)
    | some link =>
      let updated := { link with enabled := enabled }
      ({ success := true, link := some updated },
       some { registry with links := registry.links.set i updated })

/-- The deploy-and-cleanup tail of linker.ts `syncLink` (the
`try { deploy } finally { cleanup }` block): deploy to exactly the
requested target, then — when a temp dir was created — remove
`skillDir` (not the temp dir itself) recursively. -/
def syncDeployStep (w : World) (fs : FS) (link : SkillLink) (skillDir : String)
    (cleanup : Bool) (options : LinkOptions) : SyncResult × List FsEffect :=
  let deployOptions : DeployOptions :=
    { targets := [options.target], force := options.force, dryRun := false,
      projectPath := if (options.userLevel.getD false) then none else some w.cwd }
  let cleanupEffs := if cleanup then [FsEffect.removePath skillDir true] else []
  match deploySkill w fs skillDir deployOptions with
  | .error e =>
    ({ link := none, success := false, error := some e }, cleanupEffs)
  | .ok out =>
    ({ link := some link, success := out.1.all fun r => r.success,
       deployResults := some out.1 }, out.2.2 ++ cleanupEffs)

/-- linker.ts `syncLink` on the parsed registry: look the link up, skip
disabled links, materialize the source (git links clone into a fresh
temp dir), deploy, clean up. -/
def syncLink (w : World) (fs : FS) (registry : SkillLinkRegistry) (name : String)
    (options : LinkOptions) : SyncResult × List FsEffect :=
  match registry.links.find? fun l => l.name == name with
  | none =>
    ({ link := none, success := false, error := some s!"Link \"{name}\" not found" }, [])
  | some link =>
    if !link.enabled then
      ({ link := some link, success := false, error := some s!"Link \"{name}\" is disabled" }, [])
    else
      match link.type with
      | .web =>
        ({ link := some link, success := false,
           error := some "Web links are not yet supported for syncing" }, [])
      | .local =>
        let skillDir := expandHome w.home link.source
        syncDeployStep w fs link skillDir false options
      | .git =>
        let tempDir := w.tempDir
        let mkEff := FsEffect.makeTempDir tempDir
        let fs0 := fs.applyEffect mkEff
        match w.cloneResult link.source link.branch with
        | .error e =>
          ({ link := none, success := false, error := some s!"Git clone failed: {e}" },
           [mkEff, FsEffect.removePath tempDir true])
        | .ok _ =>
          let cloneEff := FsEffect.gitClone link.source link.branch tempDir
          let fs1 := fs0.applyEffect cloneEff
          let skillDir :=
            match link.path with
            | some p => joinPath tempDir p
            | none => tempDir
          let step := syncDeployStep w fs1 link skillDir true options
          (step.1, mkEff :: cloneEff :: step.2)

/-- The loop of linker.ts `syncAllLinks`: every link in registry order,
skipping disabled ones, one `syncLink` invocation per visited link. -/
def syncLinksLoop (w : World) (registry : SkillLinkRegistry) (options : LinkOptions) :
    List SkillLink → FS → List SyncResult × FS × List FsEffect
  | [], fs => ([], fs, [])
  | link :: rest, fs =>
    if !link.enabled then syncLinksLoop w registry options rest fs
    else
      let step := syncLink w fs registry link.name options
      let fs1 := fs.applyEffects step.2
      let tail := syncLinksLoop w registry options rest fs1
      (step.1 :: tail.1, tail.2.1, step.2 ++ tail.2.2)

/-- linker.ts `syncAllLinks`. -/
def syncAllLinks (w : World) (fs : FS) (registry : SkillLinkRegistry)
    (options : LinkOptions) : List SyncResult × FS × List FsEffect :=
  syncLinksLoop w registry options registry.links fs

/-- Spec-side description of `syncAll` (§4.6): run the single-link state
machine once per given link, in order, collecting one result each. -/
def syncSequenceSpec (w : World) (registry : SkillLinkRegistry) (options : LinkOptions) :
    List SkillLink → FS → List SyncResult × FS × List FsEffect
  | [], fs => ([], fs, [])
  | link :: rest, fs =>
    let step := syncLink w fs registry link.name options
    let fs1 := fs.applyEffects step.2
    let tail := syncSequenceSpec w registry options rest fs1
    (step.1 :: tail.1, tail.2.1, step.2 ++ tail.2.2)

/-- The result list of a `deploySkill` run (empty when the manifest
parse failed and the exception propagated). -/
def deployResultsOf (x : Except String (List DeployResult × FS × List FsEffect)) :
    List DeployResult :=
  match x with
  | .ok out => out.1
  | .error _ => []

/-- The effect trace of a `deploySkill` run. -/
def deployEffectsOf (x : Except String (List DeployResult × FS × List FsEffect)) :
    List FsEffect :=
  match x with
  | .ok out => out.2.2
  | .error _ => []

/-- The propagated exception of a `deploySkill` run, if any. -/
def deployErrorOf (x : Except String (List DeployResult × FS × List FsEffect)) :
    Option String :=
  match x with
  | .ok _ => none
  | .error e => some e

/-- The destination path a deploy to `target` checks and writes: the
per-skill subdirectory under the user-scope base, or the single
`.cursorrules` file. -/
def targetDest (w : World) (skillName : String) : DeployTarget → String
  | .claude => joinPath (expandHome w.home (getTargetPath .claude true)) skillName
  | .codex => joinPath (expandHome w.home (getTargetPath .codex true)) skillName
  | .cursor => cursorProjectPath

/-- Sample skill file used as concrete input in witnesses. -/
def sk0 : SkillFile := { metadata := { name := "demo", description := "d" }, content := "body" }

/-- Sample world (concrete capabilities) used in witnesses. -/
def w0 : World :=
  { home := "/home/u", parseSkill := fun _ => .ok sk0,
    statIsDir := fun _ => .ok true, skillDirValid := fun _ => ⟨true, []⟩,
    tempDir := "/tmp/skill-link-abc", cloneResult := fun _ _ => .ok (),
    cwd := "/cwd" }

/-- The empty filesystem (no path exists). -/
def fsEmpty : FS := ⟨fun _ => false⟩

/-- Sample git link with a `path` (sub-directory) declared. -/
def link0 : SkillLink :=
  { name := "x", type := .git, source := "https://g/x.git", path := some "skills/foo",
    enabled := true }

/-- Sample one-link registry. -/
def reg0 : SkillLinkRegistry := { version := "1.0.0", links := [link0] }

/-- Concrete manifest whose body contains the `## Rule:` marker and
carries a trailing newline (stripped by the converter's `trim`). -/
def skMarker : SkillFile :=
  { metadata := { name := "n", description := "d" }, content := "## Rule: X\n" }

/-- World whose manifest parsing fails (missing or malformed SKILL.md). -/
def wBadParse : World :=
  { w0 with parseSkill := fun _ => .error "File not found: /s/SKILL.md" }

/-- Filesystem on which only the `.cursorrules` file exists. -/
def fsCursorOnly : FS := ⟨fun q => q = ".cursorrules"⟩

/-!
General helper lemmas about the string/list primitives of the model.
-/

lemma strData_app (a b : String) : (a ++ b).data = a.data ++ b.data := rfl

lemma toString_str (s : String) : toString s = s := rfl

lemma strExt {a b : String} (h : a.data = b.data) : a = b := by
  cases a
  cases b
  exact congrArg String.mk h

lemma hasSub_true_iff {s pat : String} : hasSub s pat = true ↔ pat.data <:+: s.data := by
  simp [hasSub]

lemma hasSub_false_iff {s pat : String} : hasSub s pat = false ↔ ¬ pat.data <:+: s.data := by
  simp [hasSub]

lemma hasSub_app_left {a pat : String} (b : String) (h : hasSub a pat = true) :
    hasSub (a ++ b) pat = true := by
  rw [hasSub_true_iff] at h ⊢
  rw [strData_app]
  exact h.trans ⟨[], b.data, by simp⟩

lemma hasSub_app_right {b pat : String} (a : String) (h : hasSub b pat = true) :
    hasSub (a ++ b) pat = true := by
  rw [hasSub_true_iff] at h ⊢
  rw [strData_app]
  exact h.trans ⟨a.data, [], by simp⟩

lemma jsTrim_data_within (s : String) : (jsTrim s).data <:+: s.data := by
  unfold jsTrim
  have h1 : (s.data.dropWhile Char.isWhitespace) <:+ s.data := List.dropWhile_suffix _
  have h2 : ((s.data.dropWhile Char.isWhitespace).reverse.dropWhile Char.isWhitespace).reverse
      <+: (s.data.dropWhile Char.isWhitespace) := by
    have h3 := List.reverse_prefix.mpr
      (List.dropWhile_suffix (l := (s.data.dropWhile Char.isWhitespace).reverse)
        Char.isWhitespace)
    rwa [List.reverse_reverse] at h3
  exact h2.isInfix.trans h1.isInfix

lemma prefix_getElem?_eq {x y : List Char} (h : x <+: y) {i : Nat} (hi : i < x.length) :
    y[i]? = x[i]? := by
  obtain ⟨t, rfl⟩ := h
  exact List.getElem?_append_left hi

lemma not_pre_of_getElem?_ne {x y : List Char} {k : Nat} {a b : Char}
    (hx : x[k]? = some a) (hy : y[k]? = some b) (hne : a ≠ b) : ¬ x <+: y := by
  intro hp
  have hk : k < x.length := by
    rcases List.getElem?_eq_some_iff.mp hx with ⟨h, _⟩
    exact h
  rw [prefix_getElem?_eq hp hk, hx] at hy
  exact hne (Option.some.inj hy)

lemma ne_of_data_not_pre {x y : String} (h : ¬ x.data <+: y.data) : x ≠ y := by
  intro he
  exact h (he ▸ List.prefix_refl x.data)

lemma strNe_of_getElem?_ne {x y : String} {k : Nat} {a b : Char}
    (hx : x.data[k]? = some a) (hy : y.data[k]? = some b) (hne : a ≠ b) : x ≠ y :=
  ne_of_data_not_pre (not_pre_of_getElem?_ne hx hy hne)

lemma strNe_of_mem_not_mem {x y : String} {c : Char}
    (hx : c ∈ x.data) (hy : c ∉ y.data) : x ≠ y := by
  intro he
  exact hy (he ▸ hx)

lemma not_pre_of_mem_not_mem {x : List Char} {y : List Char} {c : Char}
    (hx : c ∈ x) (hy : c ∉ y) : ¬ x <+: y := by
  intro hp
  exact hy (hp.subset hx)

/-- C5 counterexample: the converter does not preserve a marker-bearing
body byte-for-byte after the generated heading and description lines —
the body is `trim`med, so a trailing newline is lost. -/
theorem c5_counterexample :
    hasSub skMarker.content "## Rule:" = true ∧
    convertToCursorRules skMarker ≠
      "# n\n\n## Description\nd\n\n" ++ skMarker.content := by
  decide

/-- C5 (amended): with a dialect-native `## Rule:` marker present the
output is the generated heading/description lines followed by the
`trim`med body (byte-for-byte up to that whitespace trim); without the
marker the `trim`med body is wrapped under exactly one generic
`## Rule: Skill Instructions` section, and the wrapped body itself
contains no further `## Rule:` marker. -/
theorem c5_convertToCursorRules_amended (sk : SkillFile) :
    (hasSub sk.content "## Rule:" = true →
      convertToCursorRules sk =
        "# " ++ sk.metadata.name ++ "\n\n## Description\n" ++ sk.metadata.description ++
          "\n\n" ++ jsTrim sk.content) ∧
    (hasSub sk.content "## Rule:" = false →
      convertToCursorRules sk =
        "# " ++ sk.metadata.name ++ "\n\n## Description\n" ++ sk.metadata.description ++
          "\n\n## Rule: Skill Instructions\n\n" ++ jsTrim sk.content ∧
      hasSub (jsTrim sk.content) "## Rule:" = false) := by
  constructor
  · intro h
    apply strExt
    simp only [convertToCursorRules, h, if_true]
    simp [joinLines, strData_app, toString_str, List.append_assoc]
  · intro h
    constructor
    · apply strExt
      simp only [convertToCursorRules, h, Bool.false_eq_true, if_false]
      simp [joinLines, strData_app, toString_str, List.append_assoc]
    · rw [hasSub_false_iff] at h ⊢
      intro hinf
      exact h (hinf.trans (jsTrim_data_within _))

/-- C5 witness: the amended theorem applied to a concrete marker-bearing
manifest. -/
theorem c5_witness :
    hasSub skMarker.content "## Rule:" = true ∧
    convertToCursorRules skMarker = "# n\n\n## Description\nd\n\n" ++ jsTrim skMarker.content :=
  ⟨by decide, by
    have h := (c5_convertToCursorRules_amended skMarker).1 (by decide)
    simpa using h⟩

/-- C6 counterexample: removing from the cursor target when the
`.cursorrules` file is absent returns success with no error, not the
not-found failure the claim asserts for every target. -/
theorem c6_counterexample :
    fsEmpty.pathExists cursorProjectPath = false ∧
    removeSkill w0 fsEmpty "any" DeployTarget.cursor =
      ({ success := true, error := none }, []) := by
  decide

/-- C6 (amended): for claude/codex, `removeSkill` deletes the present
per-skill subdirectory and returns success, and reports a not-found
failure (mutating nothing) when it is absent; for cursor it deletes the
present `.cursorrules` file (ignoring the name) and returns success, but
an absent file also yields success with no error and no effect. -/
theorem c6_removeSkill_amended (w : World) (fs : FS) (skillName : String)
    (target : DeployTarget) :
    (target ≠ .cursor → fs.pathExists (targetDest w skillName target) = true →
      removeSkill w fs skillName target =
        ({ success := true, error := none },
         [FsEffect.removePath (targetDest w skillName target) true])) ∧
    (target ≠ .cursor → fs.pathExists (targetDest w skillName target) = false →
      ∃ msg, removeSkill w fs skillName target = ({ success := false, error := some msg }, []) ∧
        hasSub msg "not found" = true) ∧
    (target = .cursor → fs.pathExists cursorProjectPath = true →
      removeSkill w fs skillName target =
        ({ success := true, error := none }, [FsEffect.removePath cursorProjectPath false])) ∧
    (target = .cursor → fs.pathExists cursorProjectPath = false →
      removeSkill w fs skillName target = ({ success := true, error := none }, [])) := by
  refine ⟨?_, ?_, ?_, ?_⟩
  · intro ht hex
    cases target with
    | cursor => exact absurd rfl ht
    | claude =>
      simp only [removeSkill, targetDest] at hex ⊢
      simp [hex]
    | codex =>
      simp only [removeSkill, targetDest] at hex ⊢
      simp [hex]
  · intro ht hex
    cases target with
    | cursor => exact absurd rfl ht
    | claude =>
      simp only [removeSkill, targetDest] at hex ⊢
      simp only [hex, Bool.false_eq_true, if_false, reduceCtorEq, reduceIte]
      exact ⟨_, rfl, hasSub_app_left _ (hasSub_app_left _ (by decide))⟩
    | codex =>
      simp only [removeSkill, targetDest] at hex ⊢
      simp only [hex, Bool.false_eq_true, if_false, reduceCtorEq, reduceIte]
      exact ⟨_, rfl, hasSub_app_left _ (hasSub_app_left _ (by decide))⟩
  · intro ht hex
    subst ht
    simp [removeSkill, hex]
  · intro ht hex
    subst ht
    simp [removeSkill, hex]

/-- C6 witness: the amended theorem applied at concrete inputs — a
present claude skill is removed, an absent one reports not-found. -/
theorem c6_witness :
    (removeSkill w0 ⟨fun q => q = "/home/u/.claude/skills/demo"⟩ "demo" DeployTarget.claude =
      ({ success := true, error := none },
       [FsEffect.removePath "/home/u/.claude/skills/demo" true])) ∧
    ∃ msg, removeSkill w0 fsEmpty "demo" DeployTarget.claude =
      ({ success := false, error := some msg }, []) ∧ hasSub msg "not found" = true := by
  constructor
  · have h := (c6_removeSkill_amended w0 ⟨fun q => q = "/home/u/.claude/skills/demo"⟩
      "demo" DeployTarget.claude).1 (by decide) (by decide)
    simpa using h
  · exact (c6_removeSkill_amended w0 fsEmpty "demo" DeployTarget.claude).2.1
      (by decide) (by decide)

/-!
Validator block lemmas.
-/

lemma mem_nameFieldErrors_field {v : Option JVal} {e : ValidationError}
    (h : e ∈ nameFieldErrors v) : e.field = "name" := by
  rcases v with _ | s | n | xs | b | _
  all_goals
    simp only [nameFieldErrors] at h
  all_goals try split_ifs at h
  all_goals simp_all
  all_goals rcases h with rfl | rfl | rfl <;> rfl

lemma mem_descriptionFieldErrors_field {v : Option JVal} {e : ValidationError}
    (h : e ∈ descriptionFieldErrors v) : e.field = "description" := by
  rcases v with _ | s | n | xs | b | _
  all_goals
    simp only [descriptionFieldErrors] at h
  all_goals try split_ifs at h
  all_goals simp_all
  all_goals rcases h with rfl | rfl | rfl <;> rfl

lemma mem_arrayItemErrors_field {f : String} {xs : List JVal} {e : ValidationError}
    (h : e ∈ arrayItemErrors f xs) : e.field = f := by
  unfold arrayItemErrors at h
  rcases List.mem_filterMap.mp h with ⟨⟨i, x⟩, hmem, hp⟩
  cases x <;>
    first
    | exact Option.noConfusion hp
    | rw [← Option.some.inj hp]

lemma mem_optionalArrayFieldErrors_field {f : String} {v : Option JVal} {e : ValidationError}
    (h : e ∈ optionalArrayFieldErrors f v) : e.field = f := by
  rcases v with _ | jv
  · simp_all [optionalArrayFieldErrors]
  · unfold optionalArrayFieldErrors at h
    cases jv <;> simp_all
    exact mem_arrayItemErrors_field h

lemma mem_modelFieldErrors_field {v : Option JVal} {e : ValidationError}
    (h : e ∈ modelFieldErrors v) : e.field = "model" := by
  rcases v with _ | jv
  · simp_all [modelFieldErrors]
  · unfold modelFieldErrors at h
    cases jv <;> simp_all

lemma nameFieldErrors_nil {nm : String} (h1 : matchesNameFormat nm = true)
    (h2 : nm.length ≤ LIMITS_name) : nameFieldErrors (some (.str nm)) = [] := by
  have h1' := h1
  simp only [matchesNameFormat, Bool.and_eq_true, Bool.not_eq_true'] at h1'
  obtain ⟨hne, hall⟩ := h1'
  have hnl : '\n' ∉ nm.data := by
    intro hmem
    have := List.all_eq_true.mp hall _ hmem
    simp [nameChar] at this
  have hlen : ¬(nm.length > LIMITS_name) := by
    simp [LIMITS_name] at h2 ⊢
    omega
  simp [nameFieldErrors, JVal.truthy, hne, hnl, hlen, h1]

lemma descriptionFieldErrors_nil {ds : String} (h0 : ds.data ≠ [])
    (h1 : '\n' ∉ ds.data) (h2 : ds.length ≤ LIMITS_description) :
    descriptionFieldErrors (some (.str ds)) = [] := by
  have hlen : ¬(ds.length > LIMITS_description) := by
    simp [LIMITS_description] at h2 ⊢
    omega
  simp [descriptionFieldErrors, JVal.truthy, h0, h1, hlen]

lemma optionalArrayFieldErrors_nil {f : String} {v : Option JVal}
    (h : match v with
         | none => True
         | some (.arr xs) => ∀ x ∈ xs, ∃ t, x = JVal.str t
         | some _ => False) :
    optionalArrayFieldErrors f v = [] := by
  rcases v with _ | jv
  · rfl
  · cases jv <;> simp_all [optionalArrayFieldErrors]
    unfold arrayItemErrors
    rw [List.filterMap_eq_nil_iff]
    intro p hp
    rcases h p.2 (List.snd_mem_of_mem_enum hp) with ⟨t, ht⟩
    simp [ht]

lemma modelFieldErrors_nil {v : Option JVal}
    (h : match v with
         | none => True
         | some (.str _) => True
         | some _ => False) :
    modelFieldErrors v = [] := by
  rcases v with _ | jv
  · rfl
  · cases jv <;> simp_all [modelFieldErrors]

lemma countP_field_zero {l : List ValidationError} {g f : String}
    (hg : ∀ e ∈ l, e.field = g) (hne : g ≠ f) :
    l.countP (fun e => e.field == f) = 0 :=
  List.countP_eq_zero.mpr fun e he => by simp [hg e he, hne]

/-- C7 counterexample: a metadata map whose `name` matches the format
and whose `description` is a single-line string of length ≤ 500 (the
empty string) still yields errors — the truthiness check reports the
empty description as missing, and an ill-typed optional `model` field
adds its own error — so the error list is not empty as claimed. -/
theorem c7_counterexample :
    matchesNameFormat "a" = true ∧ ("a" : String).length ≤ LIMITS_name ∧
    ("" : String).data.contains '\n' = false ∧ ("" : String).length ≤ LIMITS_description ∧
    validateMetadata
      { name := some (JVal.str "a"), description := some (JVal.str ""),
        model := some (JVal.num 5) } =
      [⟨"description", "Required field is missing"⟩, ⟨"model", "Must be a string"⟩] := by
  decide

/-- C7 (amended): a metadata map whose `name` matches `^[a-z0-9-]+$`
with length ≤ 64, whose `description` is a nonempty single-line string
with length ≤ 500, and whose optional fields are absent or well-typed,
validates with an empty error list; a map missing `name` (resp.
`description`) gets exactly one error for that field; and rule
violations are collected independently — a bad name format and a
missing description each contribute their error in the same run. -/
theorem c7_validateMetadata_amended (m : MetadataBag) :
    (∀ nm ds,
      m.name = some (JVal.str nm) → m.description = some (JVal.str ds) →
      matchesNameFormat nm = true → nm.length ≤ LIMITS_name →
      ds.data ≠ [] → '\n' ∉ ds.data → ds.length ≤ LIMITS_description →
      (match m.allowedTools with
       | none => True
       | some (.arr xs) => ∀ x ∈ xs, ∃ t, x = JVal.str t
       | some _ => False) →
      (match m.model with
       | none => True
       | some (.str _) => True
       | some _ => False) →
      (match m.skills with
       | none => True
       | some (.arr xs) => ∀ x ∈ xs, ∃ t, x = JVal.str t
       | some _ => False) →
      validateMetadata m = []) ∧
    (m.name = none → (validateMetadata m).countP (fun e => e.field == "name") = 1) ∧
    (m.description = none →
      (validateMetadata m).countP (fun e => e.field == "description") = 1) ∧
    (∀ nm, m.name = some (JVal.str nm) → nm.data ≠ [] → matchesNameFormat nm = false →
      (⟨"name", "Must contain only lowercase letters, numbers, and hyphens"⟩ :
        ValidationError) ∈ validateMetadata m) ∧
    (m.description = none →
      (⟨"description", "Required field is missing"⟩ : ValidationError) ∈
        validateMetadata m) := by
  refine ⟨?_, ?_, ?_, ?_, ?_⟩
  · intro nm ds hm hd hfmt hlen hds0 hds1 hds2 htools hmodel hskills
    unfold validateMetadata
    rw [hm, hd, nameFieldErrors_nil hfmt hlen, descriptionFieldErrors_nil hds0 hds1 hds2,
      optionalArrayFieldErrors_nil htools, modelFieldErrors_nil hmodel,
      optionalArrayFieldErrors_nil hskills]
    rfl
  · intro h
    unfold validateMetadata
    rw [h]
    simp only [List.countP_append]
    rw [countP_field_zero (fun e he => mem_descriptionFieldErrors_field he) (by decide),
      countP_field_zero (fun e he => mem_optionalArrayFieldErrors_field he) (by decide),
      countP_field_zero (fun e he => mem_modelFieldErrors_field he) (by decide),
      countP_field_zero (fun e he => mem_optionalArrayFieldErrors_field he) (by decide)]
    decide
  · intro h
    unfold validateMetadata
    rw [h]
    simp only [List.countP_append]
    rw [countP_field_zero (fun e he => mem_nameFieldErrors_field he) (by decide),
      countP_field_zero (fun e he => mem_optionalArrayFieldErrors_field he) (by decide),
      countP_field_zero (fun e he => mem_modelFieldErrors_field he) (by decide),
      countP_field_zero (fun e he => mem_optionalArrayFieldErrors_field he) (by decide)]
    decide
  · intro nm hm hne hfmt
    have hne' : nm.data.isEmpty = false := by
      cases hd : nm.data with
      | nil => exact absurd hd hne
      | cons a l => rfl
    unfold validateMetadata
    rw [hm]
    simp [nameFieldErrors, JVal.truthy, hne', hfmt]
  · intro hd
    unfold validateMetadata
    rw [hd]
    simp [descriptionFieldErrors]

/-- C7 witness: the amended theorem applied to a concrete fully-valid
map, a map missing `name`, and a map combining a bad name format with a
missing description. -/
theorem c7_witness :
    validateMetadata
      { name := some (JVal.str "test-skill"),
        description := some (JVal.str "A test skill") } = [] ∧
    (validateMetadata { description := some (JVal.str "A test skill") }).countP
      (fun e => e.field == "name") = 1 ∧
    (⟨"name", "Must contain only lowercase letters, numbers, and hyphens"⟩ :
      ValidationError) ∈ validateMetadata { name := some (JVal.str "Test_Skill") } ∧
    (⟨"description", "Required field is missing"⟩ : ValidationError) ∈
      validateMetadata { name := some (JVal.str "Test_Skill") } := by
  refine ⟨?_, ?_, ?_, ?_⟩
  · exact (c7_validateMetadata_amended _).1 "test-skill" "A test skill" rfl rfl
      (by decide) (by decide) (by decide) (by decide) (by decide) trivial trivial trivial
  · exact (c7_validateMetadata_amended _).2.1 rfl
  · exact (c7_validateMetadata_amended _).2.2.2.1 "Test_Skill" rfl (by decide) (by decide)
  · exact (c7_validateMetadata_amended _).2.2.2.2 rfl

/-- C4: the claude/codex deploy ignores `projectPath` entirely — at the
failing input the resolved path is the user-scope location although a
project path override was supplied, and in general the function's output
does not depend on `projectPath` at all (the source always passes
`isUserLevel = true`). -/
theorem c4_code_bug :
    (deployToClaudeOrCodex w0 fsEmpty "/s/demo" DeployTarget.claude "demo"
      { targets := [DeployTarget.claude], projectPath := some "/proj" }).1.path =
      some "/home/u/.claude/skills/demo" ∧
    ∀ (w : World) (fs : FS) (skillDir : String) (t : DeployTarget) (n : String)
      (o : DeployOptions) (p1 p2 : Option String),
      deployToClaudeOrCodex w fs skillDir t n { o with projectPath := p1 } =
        deployToClaudeOrCodex w fs skillDir t n { o with projectPath := p2 } := by
  constructor
  · decide
  · intro w fs skillDir t n o p1 p2
    rfl

/-- C3: syncing the git link `x` (whose clone succeeds and which
declares the sub-path `skills/foo`) creates the temporary clone
directory, deploys successfully, but the cleanup removes only
`tempDir/skills/foo` — no removal of the temporary directory itself is
ever recorded, and it still exists after applying every effect of the
call. -/
theorem c3_code_bug :
    (syncLink w0 fsEmpty reg0 "x" { target := DeployTarget.claude }).1.success = true ∧
    (syncLink w0 fsEmpty reg0 "x" { target := DeployTarget.claude }).2 =
      [FsEffect.makeTempDir "/tmp/skill-link-abc",
       FsEffect.gitClone "https://g/x.git" none "/tmp/skill-link-abc",
       FsEffect.mkdirp "/home/u/.claude/skills",
       FsEffect.copyDir "/tmp/skill-link-abc/skills/foo" "/home/u/.claude/skills/demo",
       FsEffect.removePath "/tmp/skill-link-abc/skills/foo" true] ∧
    FsEffect.removePath "/tmp/skill-link-abc" true ∉
      (syncLink w0 fsEmpty reg0 "x" { target := DeployTarget.claude }).2 ∧
    FsEffect.removePath "/tmp/skill-link-abc" false ∉
      (syncLink w0 fsEmpty reg0 "x" { target := DeployTarget.claude }).2 ∧
    (fsEmpty.applyEffects
        (syncLink w0 fsEmpty reg0 "x" { target := DeployTarget.claude }).2).pathExists
      "/tmp/skill-link-abc" = true := by
  decide

/-- C10: toggling an existing link rewrites the registry with only that
link's `enabled` field changed — same version, same length, every other
position untouched, and every other field of the updated link preserved;
toggling a missing name fails and writes nothing. -/
theorem c10_toggleLink (registry : SkillLinkRegistry) (name : String) (enabled : Bool) :
    (registry.links.findIdx? (fun l => l.name == name) = none →
      ∃ msg, toggleLink registry name enabled =
        ({ success := false, link := none, error := some msg }, none)) ∧
    (∀ i link, registry.links.findIdx? (fun l => l.name == name) = some i →
      registry.links[i]? = some link →
      toggleLink registry name enabled =
        ({ success := true, link := some { link with enabled := enabled }, error := none },
         some { version := registry.version,
                links := registry.links.set i { link with enabled := enabled } }) ∧
      ({ link with enabled := enabled } : SkillLink).name = link.name ∧
      ({ link with enabled := enabled } : SkillLink).type = link.type ∧
      ({ link with enabled := enabled } : SkillLink).source = link.source ∧
      ({ link with enabled := enabled } : SkillLink).path = link.path ∧
      ({ link with enabled := enabled } : SkillLink).branch = link.branch ∧
      ({ link with enabled := enabled } : SkillLink).description = link.description ∧
      (registry.links.set i { link with enabled := enabled }).length =
        registry.links.length ∧
      ∀ j, j ≠ i →
        (registry.links.set i { link with enabled := enabled })[j]? =
          registry.links[j]?) := by
  constructor
  · intro h
    simp only [toggleLink, h]
    exact ⟨_, rfl⟩
  · intro i link hi hl
    simp only [toggleLink, hi, hl]
    refine ⟨by simp, by simp, by simp, by simp, by simp, by simp, by simp,
      List.length_set _ _ _, fun j hj => List.getElem?_set_ne (fun he => hj he.symm)⟩

/-- C10 witness: toggling the one link of the sample registry off
rewrites exactly that link's `enabled` field. -/
theorem c10_witness :
    toggleLink reg0 "x" false =
      ({ success := true, link := some { link0 with enabled := false }, error := none },
       some { version := "1.0.0", links := [{ link0 with enabled := false }] }) ∧
    reg0.links.findIdx? (fun l => l.name == "x") = some 0 := by
  constructor
  · have h := ((c10_toggleLink reg0 "x" false).2 0 link0 (by decide) (by decide)).1
    exact h
  · decide

/-- C9: `syncAllLinks` equals the spec-side per-link state machine run
over exactly the `enabled` links in registry order, and that run yields
exactly one `SyncResult` per visited link (so a failing link never stops
the iteration). -/
theorem c9_syncAllLinks (w : World) (fs : FS) (registry : SkillLinkRegistry)
    (options : LinkOptions) :
    syncAllLinks w fs registry options =
      syncSequenceSpec w registry options (registry.links.filter (fun l => l.enabled)) fs ∧
    ∀ (ls : List SkillLink) (fs2 : FS),
      (syncSequenceSpec w registry options ls fs2).1.length = ls.length := by
  constructor
  · unfold syncAllLinks
    generalize registry.links = ls
    induction ls generalizing fs with
    | nil => rfl
    | cons link rest ih =>
      by_cases he : link.enabled
      · rw [List.filter_cons_of_pos (by simp [he])]
        unfold syncLinksLoop syncSequenceSpec
        simp only [he, Bool.not_true, Bool.false_eq_true, if_false]
        rw [ih]
      · rw [List.filter_cons_of_neg (by simp [he])]
        unfold syncLinksLoop
        rw [if_pos (by simp [he]), ih]
  · intro ls
    induction ls with
    | nil => intro fs2; rfl
    | cons link rest ih =>
      intro fs2
      unfold syncSequenceSpec
      simp [ih]

lemma findIdx?_some_spec {α : Type} {p : α → Bool} :
    ∀ {l : List α} {s i : Nat}, List.findIdx? p l s = some i →
      s ≤ i ∧ ∃ a, l[i - s]? = some a ∧ p a = true := by
  intro l
  induction l with
  | nil => intro s i h; simp [List.findIdx?] at h
  | cons x xs ih =>
    intro s i h
    rw [List.findIdx?_cons] at h
    by_cases hx : p x
    · rw [if_pos hx] at h
      obtain rfl := Option.some.inj h
      exact ⟨le_refl _, x, by simp, hx⟩
    · rw [if_neg hx] at h
      obtain ⟨hs, a, ha, hp⟩ := ih h
      refine ⟨by omega, a, ?_, hp⟩
      have hks : i - s = (i - (s + 1)) + 1 := by omega
      rw [hks, List.getElem?_cons_succ]
      exact ha

lemma findIdx?_zero_some {α : Type} {p : α → Bool} {l : List α} {i : Nat}
    (h : List.findIdx? p l = some i) : ∃ a, l[i]? = some a ∧ p a = true := by
  obtain ⟨_, a, ha, hp⟩ := findIdx?_some_spec h
  exact ⟨a, by simpa using ha, hp⟩

lemma countP_set_balance {α : Type} (p : α → Bool) :
    ∀ (l : List α) (i : Nat) (a b : α), l[i]? = some a →
      (l.set i b).countP p + (if p a then 1 else 0) =
        l.countP p + (if p b then 1 else 0) := by
  intro l
  induction l with
  | nil => intro i a b h; simp at h
  | cons x xs ih =>
    intro i a b h
    cases i with
    | zero =>
      obtain rfl : x = a := by simpa using h
      simp only [List.set]
      rw [List.countP_cons, List.countP_cons]
      omega
    | succ j =>
      rw [List.getElem?_cons_succ] at h
      simp only [List.set]
      rw [List.countP_cons, List.countP_cons]
      have := ih j a b h
      omega

lemma countP_eraseIdx_balance {α : Type} (p : α → Bool) :
    ∀ (l : List α) (i : Nat) (a : α), l[i]? = some a →
      (l.eraseIdx i).countP p + (if p a then 1 else 0) = l.countP p := by
  intro l
  induction l with
  | nil => intro i a h; simp at h
  | cons x xs ih =>
    intro i a h
    cases i with
    | zero =>
      obtain rfl : x = a := by simpa using h
      rw [List.eraseIdx_cons_zero, List.countP_cons]
    | succ j =>
      rw [List.getElem?_cons_succ] at h
      rw [List.eraseIdx_cons_succ, List.countP_cons, List.countP_cons]
      have := ih j a h
      omega

lemma addLink_write_spec (w : World) (registry : SkillLinkRegistry)
    (name source : String) (options : LinkOptions) (lo : LinkAddDetails) :
    ∀ reg2, (addLink w registry name source options lo).2 = some reg2 →
      ∃ link : SkillLink, reg2.version = registry.version ∧
        ((registry.links.findIdx? (fun l => l.name == name) = none ∧
          reg2.links = registry.links ++ [link]) ∨
         (∃ i, registry.links.findIdx? (fun l => l.name == name) = some i ∧
          reg2.links = registry.links.set i link)) ∧ link.name = name := by
  intro reg2 h
  simp only [addLink] at h
  split at h
  · exact Option.noConfusion h
  · split at h
    · exact Option.noConfusion h
    · obtain rfl := Option.some.inj h
      rcases hidx : registry.links.findIdx? (fun l => l.name == name) with _ | i
      · rw [hidx]
        exact ⟨_, rfl, Or.inl ⟨rfl, rfl⟩, rfl⟩
      · rw [hidx]
        exact ⟨_, rfl, Or.inr ⟨i, rfl, rfl⟩, rfl⟩

lemma removeLink_write_spec (registry : SkillLinkRegistry) (name : String) :
    ∀ res reg2, removeLink registry name = (res, some reg2) →
      res.success = true ∧
      ∃ i a, registry.links.findIdx? (fun l => l.name == name) = some i ∧
        registry.links[i]? = some a ∧ reg2.links = registry.links.eraseIdx i := by
  intro res reg2 h
  rcases hidx : registry.links.findIdx? (fun l => l.name == name) with _ | i
  · simp only [removeLink, hidx] at h
    exact Option.noConfusion (congrArg Prod.snd h)
  · rcases hget : registry.links[i]? with _ | a
    · simp only [removeLink, hidx, hget] at h
      exact Option.noConfusion (congrArg Prod.snd h)
    · simp only [removeLink, hidx, hget] at h
      obtain ⟨h1, h2⟩ := Prod.mk.injEq .. ▸ h
      refine ⟨?_, i, a, hidx, hget, ?_⟩
      · rw [← h1]
      · obtain rfl := Option.some.inj h2
        rfl

/-- C8: the registry add/remove operations preserve the one-link-per-
name invariant — a same-named add without force is rejected with no
write (the original entry survives), a forced add over an existing name
replaces that entry in place, any successful add leaves exactly one link
with the name, and removing the name then listing shows no entry
with it. -/
theorem c8_addLink_removeLink (w : World) (registry : SkillLinkRegistry)
    (name source : String) (options : LinkOptions) (lo : LinkAddDetails) :
    ((∃ l ∈ registry.links, l.name = name) → options.force = false →
      ∃ msg, addLink w registry name source options lo =
        ({ success := false, link := none, error := some msg }, none)) ∧
    (registry.links.countP (fun l => l.name == name) ≤ 1 →
      ∀ res reg2, addLink w registry name source options lo = (res, some reg2) →
        reg2.links.countP (fun l => l.name == name) = 1) ∧
    (∀ i, registry.links.findIdx? (fun l => l.name == name) = some i →
      ∀ res reg2, addLink w registry name source options lo = (res, some reg2) →
        reg2.links.length = registry.links.length ∧
        (∀ j, j ≠ i → reg2.links[j]? = registry.links[j]?) ∧
        ∃ lk, reg2.links[i]? = some lk ∧ lk.name = name) ∧
    (registry.links.countP (fun l => l.name == name) ≤ 1 →
      ∀ res reg2, removeLink registry name = (res, some reg2) →
        res.success = true ∧
        (listLinks reg2).countP (fun l => l.name == name) = 0) := by
  refine ⟨?_, ?_, ?_, ?_⟩
  · rintro ⟨l, hl, hn⟩ hf
    have hidx : (registry.links.findIdx? (fun l => l.name == name)).isSome = true := by
      rcases hcase : registry.links.findIdx? (fun l => l.name == name) with _ | i
      · have := List.findIdx?_eq_none_iff.mp hcase l hl
        simp [hn] at this
      · simp [hcase]
    simp only [addLink, hf]
    rw [if_pos (by simp [hidx])]
    exact ⟨_, rfl⟩
  · intro hcnt res reg2 heq
    obtain ⟨link, _, hcases, hln⟩ :=
      addLink_write_spec w registry name source options lo reg2
        (by rw [heq])
    have hplink : (link.name == name) = true := by simp [hln]
    rcases hcases with ⟨hidx, hlinks⟩ | ⟨i, hidx, hlinks⟩
    · have hzero : registry.links.countP (fun l => l.name == name) = 0 :=
        List.countP_eq_zero.mpr fun a ha => by
          simp [List.findIdx?_eq_none_iff.mp hidx a ha]
      rw [hlinks, List.countP_append, hzero]
      simp [hplink]
    · obtain ⟨a, ha, hpa⟩ := findIdx?_zero_some hidx
      have hbal := countP_set_balance (fun l => l.name == name) registry.links i a link ha
      have hpos : 0 < registry.links.countP (fun l => l.name == name) :=
        List.countP_pos_iff.mpr ⟨a, List.getElem?_mem ha, hpa⟩
      rw [hlinks]
      simp only [hpa, hplink, if_true] at hbal
      omega
  · intro i hidx res reg2 heq
    obtain ⟨link, _, hcases, hln⟩ :=
      addLink_write_spec w registry name source options lo reg2
        (by rw [heq])
    rcases hcases with ⟨hnone, _⟩ | ⟨i2, hidx2, hlinks⟩
    · rw [hidx] at hnone
      exact Option.noConfusion hnone
    · rw [hidx] at hidx2
      obtain rfl := Option.some.inj hidx2
      obtain ⟨a, ha, _⟩ := findIdx?_zero_some hidx
      have hlt : i < registry.links.length := (List.getElem?_eq_some_iff.mp ha).1
      rw [hlinks]
      exact ⟨List.length_set _ _ _,
        fun j hj => List.getElem?_set_ne (fun he => hj he.symm),
        link, List.getElem?_set_self hlt, hln⟩
  · intro hcnt res reg2 heq
    obtain ⟨hs, i, a, hidx, ha, hlinks⟩ := removeLink_write_spec registry name res reg2 heq
    obtain ⟨a2, ha2, hpa2⟩ := findIdx?_zero_some hidx
    rw [ha] at ha2
    obtain rfl := Option.some.inj ha2
    have hbal := countP_eraseIdx_balance (fun l => l.name == name) registry.links i a ha
    simp only [hpa2, if_true] at hbal
    refine ⟨hs, ?_⟩
    unfold listLinks
    rw [hlinks]
    omega

/-- C8 witness: at the sample one-link registry — a duplicate add of
`x` without force is rejected with no write; a forced add writes a
registry still holding exactly one link named `x`, replaced in place;
removing `x` leaves zero links named `x`. -/
theorem c8_witness :
    (∃ msg, addLink w0 reg0 "x" "/elsewhere" { target := DeployTarget.claude } {} =
      ({ success := false, link := none, error := some msg }, none)) ∧
    (∀ res reg2,
      addLink w0 reg0 "x" "https://h/y.git" { target := DeployTarget.claude, force := true }
          {} = (res, some reg2) →
      reg2.links.countP (fun l => l.name == "x") = 1) ∧
    (∀ res reg2, removeLink reg0 "x" = (res, some reg2) →
      res.success = true ∧ (listLinks reg2).countP (fun l => l.name == "x") = 0) := by
  refine ⟨?_, ?_, ?_⟩
  · exact (c8_addLink_removeLink w0 reg0 "x" "/elsewhere" { target := DeployTarget.claude }
      {}).1 ⟨link0, by decide, rfl⟩ rfl
  · exact (c8_addLink_removeLink w0 reg0 "x" "https://h/y.git"
      { target := DeployTarget.claude, force := true } {}).2.1 (by decide)
  · exact (c8_addLink_removeLink w0 reg0 "x" "unused"
      { target := DeployTarget.claude } {}).2.2.2 (by decide)

/-- C2 counterexample: with the cursor destination already present and
`force` unset, a deploy whose manifest does not parse produces no
"already exists, use force" outcome at all — `deploySkill` propagates
the parse error and returns no per-target outcome. -/
theorem c2_counterexample :
    fsCursorOnly.pathExists cursorProjectPath = true ∧
    deployErrorOf (deploySkill wBadParse fsCursorOnly "/s"
        { targets := [DeployTarget.cursor], force := false }) =
      some "File not found: /s/SKILL.md" ∧
    deployResultsOf (deploySkill wBadParse fsCursorOnly "/s"
        { targets := [DeployTarget.cursor], force := false }) = [] := by
  decide

/-- C2 (amended): provided the manifest parses, a single-target deploy
whose destination already exists with `force` unset returns, for that
target, a failure outcome whose message mentions "already exists" and
"force", and performs no filesystem effect — the filesystem threaded
through is returned unchanged. -/
theorem c2_overwrite_guard_amended (w : World) (fs : FS) (skillDir : String)
    (t : DeployTarget) (o : DeployOptions) (sk : SkillFile)
    (hp : w.parseSkill (joinPath skillDir "SKILL.md") = .ok sk)
    (ht : o.targets = [t])
    (hex : fs.pathExists (targetDest w sk.metadata.name t) = true)
    (hf : o.force = false) :
    ∃ msg,
      deploySkill w fs skillDir o =
        .ok ([{ target := t, success := false, path := none, error := some msg }], fs, []) ∧
      hasSub msg "already exists" = true ∧ hasSub msg "force" = true := by
  simp only [deploySkill, hp, ht, deployTargets, deployOne]
  cases t with
  | cursor =>
    simp only [targetDest] at hex
    simp only [if_pos rfl, deployToCursor, hp, hex, if_true, hf, Bool.not_false,
      FS.applyEffects, List.foldl_nil, List.append_nil]
    refine ⟨_, rfl, ?_, ?_⟩
    · decide
    · decide
  | claude =>
    simp only [targetDest, getTargetPath, if_true] at hex
    rw [if_neg (by simp)]
    simp only [deployToClaudeOrCodex, getTargetPath, if_true, hex, hf, Bool.not_false,
      FS.applyEffects, List.foldl_nil, List.append_nil]
    refine ⟨_, rfl, ?_, ?_⟩
    · exact hasSub_app_left _ (hasSub_app_left _ (by decide))
    · exact hasSub_app_right _ (by decide)
  | codex =>
    simp only [targetDest, getTargetPath, if_true] at hex
    rw [if_neg (by simp)]
    simp only [deployToClaudeOrCodex, getTargetPath, if_true, hex, hf, Bool.not_false,
      FS.applyEffects, List.foldl_nil, List.append_nil]
    refine ⟨_, rfl, ?_, ?_⟩
    · exact hasSub_app_left _ (hasSub_app_left _ (by decide))
    · exact hasSub_app_right _ (by decide)

/-- C2 witness: the amended theorem at a concrete state with the claude
destination already deployed. -/
theorem c2_witness :
    ∃ msg,
      deploySkill w0 ⟨fun q => q = "/home/u/.claude/skills/demo"⟩ "/s/demo"
          { targets := [DeployTarget.claude], force := false } =
        .ok ([{ target := DeployTarget.claude, success := false, path := none,
                error := some msg }],
             ⟨fun q => q = "/home/u/.claude/skills/demo"⟩, []) ∧
      hasSub msg "already exists" = true ∧ hasSub msg "force" = true :=
  c2_overwrite_guard_amended w0 ⟨fun q => q = "/home/u/.claude/skills/demo"⟩ "/s/demo"
    DeployTarget.claude { targets := [DeployTarget.claude], force := false } sk0
    rfl rfl (by decide) rfl

/-!
Distinctness of the per-target destination paths, needed for the
dry-run/effect-isolation reasoning of C1.
-/

lemma expandHome_claude (home : String) :
    expandHome home "~/.claude/skills" = joinPath home ".claude/skills" := by
  unfold expandHome
  rw [if_pos (by decide)]
  rfl

lemma expandHome_codex (home : String) :
    expandHome home "~/.codex/skills" = joinPath home ".codex/skills" := by
  unfold expandHome
  rw [if_pos (by decide)]
  rfl

lemma claude_dest_data (home nm : String) :
    (joinPath (joinPath home ".claude/skills") nm).data =
      home.data ++ ("/.claude/skills/".data ++ nm.data) := by
  show (((home.data ++ "/".data) ++ ".claude/skills".data) ++ "/".data) ++ nm.data = _
  simp only [List.append_assoc]
  rfl

lemma codex_dest_data (home nm : String) :
    (joinPath (joinPath home ".codex/skills") nm).data =
      home.data ++ ("/.codex/skills/".data ++ nm.data) := by
  show (((home.data ++ "/".data) ++ ".codex/skills".data) ++ "/".data) ++ nm.data = _
  simp only [List.append_assoc]
  rfl

lemma claude_base_data (home : String) :
    (joinPath home ".claude/skills").data = home.data ++ "/.claude/skills".data := by
  show (home.data ++ "/".data) ++ ".claude/skills".data = _
  simp only [List.append_assoc]
  rfl

lemma codex_base_data (home : String) :
    (joinPath home ".codex/skills").data = home.data ++ "/.codex/skills".data := by
  show (home.data ++ "/".data) ++ ".codex/skills".data = _
  simp only [List.append_assoc]
  rfl

lemma claude_dest_get (home nm : String) :
    ((joinPath (joinPath home ".claude/skills") nm).data)[home.data.length + 3]? =
      some 'l' := by
  rw [claude_dest_data, List.getElem?_append_right (by omega)]
  norm_num

lemma codex_dest_get (home nm : String) :
    ((joinPath (joinPath home ".codex/skills") nm).data)[home.data.length + 3]? =
      some 'o' := by
  rw [codex_dest_data, List.getElem?_append_right (by omega)]
  norm_num

lemma claude_base_get (home : String) :
    ((joinPath home ".claude/skills").data)[home.data.length + 3]? = some 'l' := by
  rw [claude_base_data, List.getElem?_append_right (by omega)]
  norm_num

lemma codex_base_get (home : String) :
    ((joinPath home ".codex/skills").data)[home.data.length + 3]? = some 'o' := by
  rw [codex_base_data, List.getElem?_append_right (by omega)]
  norm_num

lemma claude_destSlash_get (home nm : String) :
    (((joinPath (joinPath home ".claude/skills") nm) ++ "/").data)[home.data.length + 3]? =
      some 'l' := by
  rw [strData_app]
  rw [List.getElem?_append_left (by rw [claude_dest_data]; simp)]
  exact claude_dest_get home nm

lemma codex_destSlash_get (home nm : String) :
    (((joinPath (joinPath home ".codex/skills") nm) ++ "/").data)[home.data.length + 3]? =
      some 'o' := by
  rw [strData_app]
  rw [List.getElem?_append_left (by rw [codex_dest_data]; simp)]
  exact codex_dest_get home nm

lemma slash_mem_claude_dest (home nm : String) :
    '/' ∈ (joinPath (joinPath home ".claude/skills") nm).data := by
  rw [claude_dest_data]
  exact List.mem_append_right _ (List.mem_append_left _ (by decide))

lemma slash_mem_codex_dest (home nm : String) :
    '/' ∈ (joinPath (joinPath home ".codex/skills") nm).data := by
  rw [codex_dest_data]
  exact List.mem_append_right _ (List.mem_append_left _ (by decide))

lemma slash_mem_claude_base (home : String) :
    '/' ∈ (joinPath home ".claude/skills").data := by
  rw [claude_base_data]
  exact List.mem_append_right _ (by decide)

lemma slash_mem_codex_base (home : String) :
    '/' ∈ (joinPath home ".codex/skills").data := by
  rw [codex_base_data]
  exact List.mem_append_right _ (by decide)

lemma slash_not_mem_cursor : '/' ∉ cursorProjectPath.data := by decide

lemma targetDest_claude (w : World) (nm : String) :
    targetDest w nm .claude = joinPath (joinPath w.home ".claude/skills") nm := by
  simp [targetDest, getTargetPath, expandHome_claude]

lemma targetDest_codex (w : World) (nm : String) :
    targetDest w nm .codex = joinPath (joinPath w.home ".codex/skills") nm := by
  simp [targetDest, getTargetPath, expandHome_codex]

lemma codexDest_ne_claudeDest (home nm nm2 : String) :
    joinPath (joinPath home ".codex/skills") nm ≠
      joinPath (joinPath home ".claude/skills") nm2 :=
  strNe_of_getElem?_ne (codex_dest_get home nm) (claude_dest_get home nm2) (by decide)

lemma claudeDest_ne_codexDest (home nm nm2 : String) :
    joinPath (joinPath home ".claude/skills") nm ≠
      joinPath (joinPath home ".codex/skills") nm2 :=
  strNe_of_getElem?_ne (claude_dest_get home nm) (codex_dest_get home nm2) (by decide)

lemma not_under_claudeDest_codexDest (home nm nm2 : String) :
    ¬ underPath (joinPath (joinPath home ".claude/skills") nm)
      (joinPath (joinPath home ".codex/skills") nm2) :=
  not_pre_of_getElem?_ne (claude_destSlash_get home nm) (codex_dest_get home nm2) (by decide)

lemma not_under_codexDest_claudeDest (home nm nm2 : String) :
    ¬ underPath (joinPath (joinPath home ".codex/skills") nm)
      (joinPath (joinPath home ".claude/skills") nm2) :=
  not_pre_of_getElem?_ne (codex_destSlash_get home nm) (claude_dest_get home nm2) (by decide)

lemma codexDest_ne_claudeBase (home nm : String) :
    joinPath (joinPath home ".codex/skills") nm ≠ joinPath home ".claude/skills" :=
  strNe_of_getElem?_ne (codex_dest_get home nm) (claude_base_get home) (by decide)

lemma claudeDest_ne_codexBase (home nm : String) :
    joinPath (joinPath home ".claude/skills") nm ≠ joinPath home ".codex/skills" :=
  strNe_of_getElem?_ne (claude_dest_get home nm) (codex_base_get home) (by decide)

lemma claudeDest_ne_cursor (home nm : String) :
    joinPath (joinPath home ".claude/skills") nm ≠ cursorProjectPath :=
  strNe_of_mem_not_mem (slash_mem_claude_dest home nm) slash_not_mem_cursor

lemma codexDest_ne_cursor (home nm : String) :
    joinPath (joinPath home ".codex/skills") nm ≠ cursorProjectPath :=
  strNe_of_mem_not_mem (slash_mem_codex_dest home nm) slash_not_mem_cursor

lemma cursor_ne_claudeDest (home nm : String) :
    cursorProjectPath ≠ joinPath (joinPath home ".claude/skills") nm :=
  (claudeDest_ne_cursor home nm).symm

lemma cursor_ne_codexDest (home nm : String) :
    cursorProjectPath ≠ joinPath (joinPath home ".codex/skills") nm :=
  (codexDest_ne_cursor home nm).symm

lemma cursor_ne_claudeBase (home : String) :
    cursorProjectPath ≠ joinPath home ".claude/skills" :=
  (strNe_of_mem_not_mem (slash_mem_claude_base home) slash_not_mem_cursor).symm

lemma cursor_ne_codexBase (home : String) :
    cursorProjectPath ≠ joinPath home ".codex/skills" :=
  (strNe_of_mem_not_mem (slash_mem_codex_base home) slash_not_mem_cursor).symm

lemma not_under_claudeDest_cursor (home nm : String) :
    ¬ underPath (joinPath (joinPath home ".claude/skills") nm) cursorProjectPath :=
  not_pre_of_mem_not_mem
    (by rw [strData_app]; exact List.mem_append_right _ (by decide))
    slash_not_mem_cursor

lemma not_under_codexDest_cursor (home nm : String) :
    ¬ underPath (joinPath (joinPath home ".codex/skills") nm) cursorProjectPath :=
  not_pre_of_mem_not_mem
    (by rw [strData_app]; exact List.mem_append_right _ (by decide))
    slash_not_mem_cursor

/-- Handling one target never changes path existence at another
target's destination: the emitted effects touch only the handled
target's base/destination (or the single cursor file), and those are
distinct from every other target's destination. -/
lemma deployOne_effects_preserve (w : World) (fs fs2 : FS) (dir nm : String)
    (o : DeployOptions) {t t2 : DeployTarget} (hne : t ≠ t2) :
    (fs2.applyEffects (deployOne w fs dir nm o t).2).pathExists (targetDest w nm t2) =
      fs2.pathExists (targetDest w nm t2) := by
  cases t with
  | cursor =>
    have hq : targetDest w nm t2 ≠ cursorProjectPath := by
      cases t2 with
      | cursor => exact absurd rfl hne
      | claude => rw [targetDest_claude]; exact claudeDest_ne_cursor w.home nm
      | codex => rw [targetDest_codex]; exact codexDest_ne_cursor w.home nm
    simp only [deployOne, deployToCursor, reduceIte]
    cases hp : w.parseSkill (joinPath dir "SKILL.md") with
    | error e => simp [FS.applyEffects]
    | ok sk =>
      simp [FS.applyEffects, FS.applyEffect, hq]
      split_ifs <;> simp [FS.applyEffects, FS.applyEffect, hq]
  | claude =>
    have hq1 : targetDest w nm t2 ≠ joinPath (joinPath w.home ".claude/skills") nm := by
      cases t2 with
      | claude => exact absurd rfl hne
      | codex => rw [targetDest_codex]; exact codexDest_ne_claudeDest w.home nm nm
      | cursor => exact cursor_ne_claudeDest w.home nm
    have hq2 : ¬ underPath (joinPath (joinPath w.home ".claude/skills") nm)
        (targetDest w nm t2) := by
      cases t2 with
      | claude => exact absurd rfl hne
      | codex => rw [targetDest_codex]; exact not_under_claudeDest_codexDest w.home nm nm
      | cursor => exact not_under_claudeDest_cursor w.home nm
    have hq3 : targetDest w nm t2 ≠ joinPath w.home ".claude/skills" := by
      cases t2 with
      | claude => exact absurd rfl hne
      | codex => rw [targetDest_codex]; exact codexDest_ne_claudeBase w.home nm
      | cursor => exact cursor_ne_claudeBase w.home
    simp only [deployOne]
    rw [if_neg (by simp)]
    simp only [deployToClaudeOrCodex, getTargetPath, if_true, expandHome_claude]
    split_ifs <;> simp [FS.applyEffects, FS.applyEffect, hq1, hq2, hq3]
  | codex =>
    have hq1 : targetDest w nm t2 ≠ joinPath (joinPath w.home ".codex/skills") nm := by
      cases t2 with
      | codex => exact absurd rfl hne
      | claude => rw [targetDest_claude]; exact claudeDest_ne_codexDest w.home nm nm
      | cursor => exact cursor_ne_codexDest w.home nm
    have hq2 : ¬ underPath (joinPath (joinPath w.home ".codex/skills") nm)
        (targetDest w nm t2) := by
      cases t2 with
      | codex => exact absurd rfl hne
      | claude => rw [targetDest_claude]; exact not_under_codexDest_claudeDest w.home nm nm
      | cursor => exact not_under_codexDest_cursor w.home nm
    have hq3 : targetDest w nm t2 ≠ joinPath w.home ".codex/skills" := by
      cases t2 with
      | codex => exact absurd rfl hne
      | claude => rw [targetDest_claude]; exact claudeDest_ne_codexBase w.home nm
      | cursor => exact cursor_ne_codexBase w.home
    simp only [deployOne]
    rw [if_neg (by simp)]
    simp only [deployToClaudeOrCodex, getTargetPath, if_true, expandHome_codex]
    split_ifs <;> simp [FS.applyEffects, FS.applyEffect, hq1, hq2, hq3]

/-- The outcome (and effects) of handling one target depend on the
filesystem only through existence at that target's destination. -/
lemma deployOne_fs_congr (w : World) (fs1 fs2 : FS) (dir nm : String)
    (o : DeployOptions) (t : DeployTarget)
    (h : fs1.pathExists (targetDest w nm t) = fs2.pathExists (targetDest w nm t)) :
    deployOne w fs1 dir nm o t = deployOne w fs2 dir nm o t := by
  cases t with
  | cursor =>
    simp only [targetDest] at h
    simp only [deployOne, deployToCursor, reduceIte]
    cases hp : w.parseSkill (joinPath dir "SKILL.md") with
    | error e => rfl
    | ok sk => simp only [reduceIte, h]
  | claude =>
    simp only [targetDest] at h
    simp only [deployOne]
    rw [if_neg (by simp), if_neg (by simp)]
    simp only [deployToClaudeOrCodex]
    rw [h]
  | codex =>
    simp only [targetDest] at h
    simp only [deployOne]
    rw [if_neg (by simp), if_neg (by simp)]
    simp only [deployToClaudeOrCodex]
    rw [h]

/-- The outcome of handling one target does not depend on `dryRun`. -/
lemma deployOne_result_dryRun (w : World) (fs : FS) (dir nm : String)
    (o : DeployOptions) (d : Bool) (t : DeployTarget) :
    (deployOne w fs dir nm { o with dryRun := d } t).1 = (deployOne w fs dir nm o t).1 := by
  cases t with
  | cursor =>
    simp only [deployOne, deployToCursor, reduceIte]
    cases hp : w.parseSkill (joinPath dir "SKILL.md") with
    | error e => rfl
    | ok sk => split_ifs <;> rfl
  | claude =>
    simp only [deployOne]
    rw [if_neg (by simp), if_neg (by simp)]
    simp only [deployToClaudeOrCodex]
    split_ifs <;> rfl
  | codex =>
    simp only [deployOne]
    rw [if_neg (by simp), if_neg (by simp)]
    simp only [deployToClaudeOrCodex]
    split_ifs <;> rfl

/-- A dry run emits no effects for any single target. -/
lemma deployOne_dry_effects (w : World) (fs : FS) (dir nm : String)
    (o : DeployOptions) (t : DeployTarget) (hd : o.dryRun = true) :
    (deployOne w fs dir nm o t).2 = [] := by
  cases t with
  | cursor =>
    simp only [deployOne, deployToCursor, reduceIte]
    cases hp : w.parseSkill (joinPath dir "SKILL.md") with
    | error e => rfl
    | ok sk => split_ifs <;> simp_all
  | claude =>
    simp only [deployOne]
    rw [if_neg (by simp)]
    simp only [deployToClaudeOrCodex]
    split_ifs <;> simp_all
  | codex =>
    simp only [deployOne]
    rw [if_neg (by simp)]
    simp only [deployToClaudeOrCodex]
    split_ifs <;> simp_all

/-- A dry run over any target list emits no effects and leaves the
filesystem untouched; each outcome is computed against the initial
state. -/
lemma deployTargets_dry (w : World) (dir nm : String) (o : DeployOptions)
    (hd : o.dryRun = true) :
    ∀ (ts : List DeployTarget) (fs : FS),
      deployTargets w dir nm o ts fs =
        (ts.map fun t => (deployOne w fs dir nm o t).1, fs, []) := by
  intro ts
  induction ts with
  | nil => intro fs; rfl
  | cons t ts ih =>
    intro fs
    simp only [deployTargets]
    rw [deployOne_dry_effects w fs dir nm o t hd]
    rw [show fs.applyEffects [] = fs from rfl, ih fs]
    rfl

/-- Without duplicate targets, the outcome list depends on the initial
filesystem only through existence at the listed targets'
destinations. -/
lemma deployTargets_congr (w : World) (dir nm : String) (o : DeployOptions) :
    ∀ (ts : List DeployTarget), ts.Nodup → ∀ (fs1 fs2 : FS),
      (∀ t ∈ ts, fs1.pathExists (targetDest w nm t) = fs2.pathExists (targetDest w nm t)) →
      (deployTargets w dir nm o ts fs1).1 = (deployTargets w dir nm o ts fs2).1 := by
  intro ts
  induction ts with
  | nil => intro _ fs1 fs2 _; rfl
  | cons t ts ih =>
    intro hnd fs1 fs2 hag
    have hstep : deployOne w fs1 dir nm o t = deployOne w fs2 dir nm o t :=
      deployOne_fs_congr w fs1 fs2 dir nm o t (hag t (by simp))
    have htails :
        (deployTargets w dir nm o ts
          (fs1.applyEffects (deployOne w fs2 dir nm o t).2)).1 =
        (deployTargets w dir nm o ts
          (fs2.applyEffects (deployOne w fs2 dir nm o t).2)).1 := by
      apply ih (List.nodup_cons.mp hnd).2
      intro t2 ht2
      have hne : t ≠ t2 := fun he => (List.nodup_cons.mp hnd).1 (he ▸ ht2)
      calc (fs1.applyEffects (deployOne w fs2 dir nm o t).2).pathExists (targetDest w nm t2)
          = fs1.pathExists (targetDest w nm t2) :=
            deployOne_effects_preserve w fs2 fs1 dir nm o hne
        _ = fs2.pathExists (targetDest w nm t2) := hag t2 (List.mem_cons_of_mem _ ht2)
        _ = (fs2.applyEffects (deployOne w fs2 dir nm o t).2).pathExists
              (targetDest w nm t2) :=
            (deployOne_effects_preserve w fs2 fs2 dir nm o hne).symm
    simp only [deployTargets]
    rw [hstep, htails]

/-- Without duplicate targets, a dry run produces the same outcome list
as the corresponding non-dry run on the same initial filesystem. -/
lemma deployTargets_dryRun_results (w : World) (dir nm : String) (o : DeployOptions)
    (hd : o.dryRun = true) :
    ∀ (ts : List DeployTarget), ts.Nodup → ∀ (fs : FS),
      (deployTargets w dir nm o ts fs).1 =
        (deployTargets w dir nm { o with dryRun := false } ts fs).1 := by
  intro ts
  induction ts with
  | nil => intro _ fs; rfl
  | cons t ts ih =>
    intro hnd fs
    simp only [deployTargets]
    rw [deployOne_dry_effects w fs dir nm o t hd]
    rw [show fs.applyEffects [] = fs from rfl]
    have hhead : (deployOne w fs dir nm o t).1 =
        (deployOne w fs dir nm { o with dryRun := false } t).1 :=
      (deployOne_result_dryRun w fs dir nm o false t).symm
    have hmid := ih (List.nodup_cons.mp hnd).2 fs
    have hcongr := deployTargets_congr w dir nm { o with dryRun := false } ts
      (List.nodup_cons.mp hnd).2 fs
      (fs.applyEffects (deployOne w fs dir nm { o with dryRun := false } t).2)
      (fun t2 ht2 =>
        (deployOne_effects_preserve w fs fs dir nm { o with dryRun := false }
          (fun he => (List.nodup_cons.mp hnd).1 (by rw [he]; exact ht2))).symm)
    rw [hhead, hmid, hcongr]

/-- C1 counterexample: with the duplicated target list
`[claude, claude]` on a clean filesystem, the dry run reports two
successes while the non-dry run reports a success and then an
"already exists" failure — the verdicts differ, refuting the claim for
arbitrary target lists. -/
theorem c1_counterexample :
    (deployResultsOf (deploySkill w0 fsEmpty "/s/demo"
      { targets := [DeployTarget.claude, DeployTarget.claude], dryRun := true })).map
      (fun r => r.success) = [true, true] ∧
    (deployResultsOf (deploySkill w0 fsEmpty "/s/demo"
      { targets := [DeployTarget.claude, DeployTarget.claude], dryRun := false })).map
      (fun r => r.success) = [true, false] := by
  decide

/-- C1 (amended): for target lists without duplicates, a dry run
performs no filesystem effect (the threaded filesystem is returned
unchanged) and returns exactly the outcome list — same verdicts, same
resolved paths, same messages — that the non-dry run would report on the
same initial state. -/
theorem c1_dryRun_amended (w : World) (fs : FS) (skillDir : String) (o : DeployOptions)
    (hn : o.targets.Nodup) (hd : o.dryRun = true) :
    deployEffectsOf (deploySkill w fs skillDir o) = [] ∧
    (∀ out, deploySkill w fs skillDir o = .ok out → out.2.1 = fs ∧ out.2.2 = []) ∧
    deployResultsOf (deploySkill w fs skillDir o) =
      deployResultsOf (deploySkill w fs skillDir { o with dryRun := false }) := by
  cases hp : w.parseSkill (joinPath skillDir "SKILL.md") with
  | error e =>
    refine ⟨?_, ?_, ?_⟩
    · simp [deploySkill, hp, deployEffectsOf]
    · intro out hout
      simp [deploySkill, hp] at hout
    · simp [deploySkill, hp, deployResultsOf]
  | ok sk =>
    have hdry := deployTargets_dry w skillDir sk.metadata.name o hd o.targets fs
    refine ⟨?_, ?_, ?_⟩
    · simp [deploySkill, hp, deployEffectsOf, hdry]
    · intro out hout
      simp only [deploySkill, hp] at hout
      rw [hdry] at hout
      obtain rfl := (Except.ok.inj hout).symm
      exact ⟨rfl, rfl⟩
    · simp only [deploySkill, hp, deployResultsOf]
      have hres := deployTargets_dryRun_results w skillDir sk.metadata.name o hd
        o.targets hn fs
      exact hres

/-- C1 witness: the amended theorem at the full duplicate-free target
list on a clean filesystem — no effects, and verdicts identical to the
non-dry run. -/
theorem c1_witness :
    deployEffectsOf (deploySkill w0 fsEmpty "/s/demo"
      { targets := [DeployTarget.claude, DeployTarget.codex, DeployTarget.cursor],
        dryRun := true }) = [] ∧
    deployResultsOf (deploySkill w0 fsEmpty "/s/demo"
      { targets := [DeployTarget.claude, DeployTarget.codex, DeployTarget.cursor],
        dryRun := true }) =
      deployResultsOf (deploySkill w0 fsEmpty "/s/demo"
        { targets := [DeployTarget.claude, DeployTarget.codex, DeployTarget.cursor],
          dryRun := false }) := by
  have h := c1_dryRun_amended w0 fsEmpty "/s/demo"
    { targets := [DeployTarget.claude, DeployTarget.codex, DeployTarget.cursor],
      dryRun := true } (by decide) rfl
  exact ⟨h.1, h.2.2⟩

end SkillBuilder
